import Mathlib

/-!
Verification of the mi-top GPU terminal monitor (Go).

The development shallowly embeds the telemetry-acquisition and live-view
state engine of the program:
  * the fixed-capacity circular utilization history (`GPUHistory` in main.go),
  * the labeled-block process parser (`getProcessInfo` in gpu_metrics.go),
  * the CSV device-metrics parser (`getGPUMetrics`),
  * the CSV-variant process parser (the `encoding/csv` based `getProcessInfo`),
  * the process-table sort (`updateProcessList`) and the keyboard event
    handler (`handleProcessListEvents`).

Go strings are embedded as `List Char` (`Str`); Go's byte-oriented string
primitives (`strings.Split`, `strings.Fields`, `strings.TrimSpace`,
`strings.Contains`, `strings.HasPrefix`, string `<`) are re-implemented over
`Str` with the same observable behaviour on UTF-8 text.  Go `float64` fields
are embedded as exact rationals (`ℚ`): none of the verified properties
depends on binary rounding.  Fallible Go code (index-out-of-range panics)
is embedded with `Option`, `none` standing for a runtime panic.
-/

/-- Embedding of Go strings: a Go string is its sequence of characters.
(Go compares and slices strings bytewise; on UTF-8 text the byte order
coincides with the code-point order used here.) -/
abbrev Str := List Char

/-! ### The circular history buffer (`GPUHistory`, main.go lines 206-233)

The Go struct stores `float64` samples; the buffer logic never inspects the
stored values, so the embedding is polymorphic in the sample type, with
`default` standing for Go's zero value used by `make([]float64, maxLen)`. -/

/-- `type GPUHistory struct { values []float64; maxLen int; index int }`. -/
structure GPUHistory (α : Type) where
  values : List α
  maxLen : Nat
  index : Nat
deriving Repr, DecidableEq

/-- `newGPUHistory(maxLen)`: a fixed-size zero-filled array with cursor 0. -/
def newGPUHistory (α : Type) [Inhabited α] (maxLen : Nat) : GPUHistory α :=
  { values := List.replicate maxLen default, maxLen := maxLen, index := 0 }

/-- `func (gh *GPUHistory) add(value float64)`: overwrite the slot at the
cursor and advance the cursor modulo `maxLen`. -/
def GPUHistory.add (gh : GPUHistory α) (value : α) : GPUHistory α :=
  { gh with values := gh.values.set gh.index value,
            index := (gh.index + 1) % gh.maxLen }

/-- `func (gh *GPUHistory) getData() []float64`: the chronological
(oldest-first) linearization `values[index:] ++ values[:index]`. -/
def GPUHistory.getData (gh : GPUHistory α) : List α :=
  if gh.index = 0 then gh.values
  else gh.values.drop gh.index ++ gh.values.take gh.index

/-- Successive `add` calls, as performed by the resize handler's replay loop
(main.go lines 332-337). -/
def GPUHistory.addList (gh : GPUHistory α) (l : List α) : GPUHistory α :=
  l.foldl GPUHistory.add gh

/-- Structural invariant of a well-formed buffer: the backing array has
exactly `maxLen` slots and the cursor is in range. -/
def GPUHistory.Inv (gh : GPUHistory α) : Prop :=
  gh.values.length = gh.maxLen ∧ gh.index < gh.maxLen

theorem GPUHistory.inv_new (α : Type) [Inhabited α] {c : Nat} (hc : 1 ≤ c) :
    (newGPUHistory α c).Inv := by
  constructor
  · simp [newGPUHistory]
  · simpa [newGPUHistory] using hc

theorem GPUHistory.inv_add {gh : GPUHistory α} (h : gh.Inv) (v : α) :
    (gh.add v).Inv := by
  obtain ⟨hlen, hidx⟩ := h
  refine ⟨by simp [GPUHistory.add, hlen], ?_⟩
  have hpos : 0 < gh.maxLen := Nat.lt_of_le_of_lt (Nat.zero_le _) hidx
  exact Nat.mod_lt _ hpos

theorem GPUHistory.maxLen_add (gh : GPUHistory α) (v : α) :
    (gh.add v).maxLen = gh.maxLen := rfl

theorem GPUHistory.getData_length {gh : GPUHistory α} (h : gh.Inv) :
    gh.getData.length = gh.maxLen := by
  obtain ⟨hlen, hidx⟩ := h
  unfold GPUHistory.getData
  by_cases h0 : gh.index = 0
  · simp [h0, hlen]
  · simp only [h0, if_false, List.length_append, List.length_drop,
      List.length_take, hlen]
    omega

theorem rotate_drop_one (l : List α) (i : Nat) (hi : i < l.length) :
    (l.drop i ++ l.take i).drop 1 = l.drop (i + 1) ++ l.take i := by
  rw [List.drop_eq_getElem_cons hi]
  simp only [List.cons_append, List.drop_succ_cons, List.drop_zero]

theorem GPUHistory.getData_add {gh : GPUHistory α} (h : gh.Inv) (v : α) :
    (gh.add v).getData = gh.getData.drop 1 ++ [v] := by
  obtain ⟨hlen, hidx⟩ := h
  have hset : gh.values.set gh.index v
      = gh.values.take gh.index ++ v :: gh.values.drop (gh.index + 1) :=
    List.set_eq_take_cons_drop v (by omega)
  have htklen : (gh.values.take gh.index).length = gh.index := by
    simp
    omega
  -- the right-hand side in normal form
  have hrhs : gh.getData.drop 1 ++ [v]
      = gh.values.drop (gh.index + 1) ++ (gh.values.take gh.index ++ [v]) := by
    unfold GPUHistory.getData
    by_cases h0 : gh.index = 0
    · simp [h0]
    · simp only [h0, if_false]
      rw [rotate_drop_one gh.values gh.index (by omega)]
      rw [List.append_assoc]
  rw [hrhs]
  -- the left-hand side
  have hdrop : (gh.values.set gh.index v).drop (gh.index + 1)
      = gh.values.drop (gh.index + 1) := by
    rw [hset, List.drop_append_eq_append_drop]
    rw [htklen]
    have h2 : (gh.values.take gh.index).drop (gh.index + 1) = [] :=
      List.drop_eq_nil_of_le (by rw [htklen]; omega)
    rw [h2]
    simp
  have htake : (gh.values.set gh.index v).take (gh.index + 1)
      = gh.values.take gh.index ++ [v] := by
    rw [hset, List.take_append_eq_append_take]
    rw [htklen]
    have h3 : (gh.values.take gh.index).take (gh.index + 1) = gh.values.take gh.index :=
      List.take_of_length_le (by rw [htklen]; omega)
    rw [h3]
    simp
  by_cases hlast : gh.index + 1 = gh.maxLen
  · -- the cursor wraps to 0
    have hidx' : ((gh.index + 1) % gh.maxLen) = 0 := by
      rw [hlast, Nat.mod_self]
    have hdropnil : gh.values.drop (gh.index + 1) = [] :=
      List.drop_eq_nil_of_le (by omega)
    unfold GPUHistory.add GPUHistory.getData
    simp only [hidx', if_true]
    rw [hset, hdropnil]
    simp
  · -- the cursor stays below maxLen
    have hlt : gh.index + 1 < gh.maxLen := by omega
    have hidx' : ((gh.index + 1) % gh.maxLen) = gh.index + 1 :=
      Nat.mod_eq_of_lt hlt
    unfold GPUHistory.add GPUHistory.getData
    simp only [hidx']
    have hne : ¬ (gh.index + 1 = 0) := by omega
    simp only [hne, if_false]
    rw [hdrop, htake]

theorem GPUHistory.inv_addList {gh : GPUHistory α} (h : gh.Inv) (l : List α) :
    (gh.addList l).Inv := by
  induction l generalizing gh with
  | nil => exact h
  | cons v l ih => exact ih (gh.inv_add h v)

theorem GPUHistory.getData_addList {gh : GPUHistory α} (h : gh.Inv) (l : List α) :
    (gh.addList l).getData = (gh.getData ++ l).drop l.length := by
  induction l generalizing gh with
  | nil => simp [GPUHistory.addList]
  | cons v l ih =>
    have hstep : (gh.addList (v :: l)) = ((gh.add v).addList l) := rfl
    rw [hstep, ih (gh.inv_add h v), gh.getData_add h v]
    have hne : gh.getData ≠ [] := by
      have hlen := GPUHistory.getData_length h
      have : 0 < gh.maxLen := Nat.lt_of_le_of_lt (Nat.zero_le _) h.2
      intro hnil
      rw [hnil] at hlen
      simp at hlen
      omega
    obtain ⟨a, t, hat⟩ : ∃ a t, gh.getData = a :: t := by
      match goal_data : gh.getData, hne with
      | a :: t, _ => exact ⟨a, t, rfl⟩
    rw [hat]
    simp [List.drop_succ_cons]

theorem GPUHistory.getData_new (α : Type) [Inhabited α] (c : Nat) :
    (newGPUHistory α c).getData = List.replicate c default := by
  simp [newGPUHistory, GPUHistory.getData]

/-- C1: rebuilding a history buffer for a new capacity (the resize handler of
main.go, lines 327-341) by replaying the old buffer's linearized values via
`add` into a fresh buffer preserves the most recent `min(old length, new
capacity)` values in chronological order; concretely, a capacity-10 buffer
holding 1..10 rebuilt at capacity 5 linearizes to [6,7,8,9,10]. -/
theorem C1_resize_preserves_recent :
    ((newGPUHistory Int 5).addList
        (((newGPUHistory Int 10).addList [1,2,3,4,5,6,7,8,9,10]).getData)).getData
      = [6,7,8,9,10]
    ∧ ∀ (α : Type) [Inhabited α] (l : List α) (c : Nat), 1 ≤ c →
        (((newGPUHistory α c).addList l).getData).drop (c - min l.length c)
          = l.drop (l.length - min l.length c) := by
  constructor
  · decide
  · intro α _ l c hc
    have hinv := GPUHistory.inv_new α hc
    rw [GPUHistory.getData_addList hinv, GPUHistory.getData_new, List.drop_drop]
    rcases le_total l.length c with h | h
    · have hmin : min l.length c = l.length := min_eq_left h
      have harith : l.length + (c - min l.length c) = c := by rw [hmin]; omega
      rw [harith, hmin, Nat.sub_self, List.drop_zero]
      have hdl := List.drop_left (List.replicate c (default : α)) l
      simpa using hdl
    · have hmin : min l.length c = c := min_eq_right h
      have harith : l.length + (c - min l.length c) = c + (l.length - c) := by
        rw [hmin]; omega
      rw [harith, hmin]
      have hda := @List.drop_append _ (List.replicate c (default : α)) l
        (l.length - c)
      simpa using hda

/-- C1 witness: the general clause instantiated at replaying [1,2,3] into a
fresh capacity-2 buffer. -/
theorem C1_resize_preserves_recent_witness :
    (((newGPUHistory Int 2).addList [1, 2, 3]).getData).drop (2 - min 3 2)
      = ([1, 2, 3] : List Int).drop (3 - min 3 2) := by
  have h := C1_resize_preserves_recent.2 Int [1, 2, 3] 2 (by decide)
  simpa using h

/-- C2: appending `n` values to a fresh capacity-`n` buffer (`newGPUHistory`,
`add`, main.go lines 212-222) makes `getData` return exactly those values in
push order, and appending `k ≤ n` further values makes `getData` return the
last `n` of the `n + k` values — exactly the oldest `k` are evicted.
`getData` is read-only by construction: it builds a fresh slice and the
embedding is a pure function of the buffer state. -/
theorem C2_roundtrip_eviction (α : Type) [Inhabited α] (n k : Nat)
    (l l' : List α) (hn : 1 ≤ n) (hl : l.length = n) (hk : l'.length = k)
    (hkn : k ≤ n) :
    ((newGPUHistory α n).addList l).getData = l
    ∧ (((newGPUHistory α n).addList l).addList l').getData = (l ++ l').drop k := by
  have hinv := GPUHistory.inv_new α hn
  have h1 : ((newGPUHistory α n).addList l).getData = l := by
    rw [GPUHistory.getData_addList hinv, GPUHistory.getData_new, ← hl]
    have hdl := List.drop_left (List.replicate l.length (default : α)) l
    simpa using hdl
  refine ⟨h1, ?_⟩
  have hinv2 : ((newGPUHistory α n).addList l).Inv :=
    GPUHistory.inv_addList hinv l
  rw [GPUHistory.getData_addList hinv2, h1, hk]

/-- C2 witness: capacity 2, values [5,6] then one further value [7]. -/
theorem C2_roundtrip_eviction_witness :
    ((newGPUHistory Int 2).addList [5, 6]).getData = [5, 6]
    ∧ (((newGPUHistory Int 2).addList [5, 6]).addList [7]).getData
        = ([5, 6] ++ [7] : List Int).drop 1 :=
  C2_roundtrip_eviction Int 2 1 [5, 6] [7] (by decide) (by decide) (by decide)
    (by decide)

/-! ### Go string primitives over `Str`

These embed the `strings` and `strconv` standard-library calls the parsers
use.  `parseGoFloat?` models the decimal syntax of `strconv.ParseFloat`
(sign, digits, optional fraction, optional exponent) into an exact rational;
`parseIntGo` models the syntax of `strconv.ParseInt(s, 10, ...)` without the
64-bit range limit, which `parseInt64Go` adds and `atoiGo` applies as the
clamping `strconv.Atoi` performs when its error is discarded. -/

/-- Split a character list at every character satisfying `p`, keeping empty
parts: the behaviour of `strings.Split` for a one-character separator when
`p` tests for that separator. -/
def splitPred (p : Char → Bool) : Str → List Str
  | [] => [[]]
  | a :: as =>
    if p a then [] :: splitPred p as
    else
      match splitPred p as with
      | [] => [[a]]
      | r :: rs => (a :: r) :: rs

/-- `strings.Split(s, sep)` for the one-character separators used by the
program (`":"` and `","`). -/
def goSplitOn (c : Char) (s : Str) : List Str := splitPred (fun x => x = c) s

/-- `strings.Fields(s)`: split around runs of whitespace, no empty fields. -/
def goFields (s : Str) : List Str :=
  (splitPred (fun c => c.isWhitespace) s).filter (fun f => f ≠ [])

/-- `strings.TrimSpace(s)`. -/
def trimStr (s : Str) : Str :=
  ((s.dropWhile Char.isWhitespace).reverse.dropWhile Char.isWhitespace).reverse

/-- `strings.HasPrefix(s, pre)`. -/
def strStartsWith (s pre : Str) : Bool := pre.isPrefixOf s

/-- `strings.Contains(s, pat)`. -/
def containsSub (s pat : Str) : Bool := decide (pat <:+: s)

/-- `strings.TrimSuffix(s, suf)`. -/
def trimSuffixStr (s suf : Str) : Str :=
  if suf.isSuffixOf s then s.take (s.length - suf.length) else s

/-- Decimal digits to a number, for all-digit strings. -/
def digitsToNat (ds : Str) : Nat :=
  ds.foldl (fun n c => n * 10 + (c.toNat - '0'.toNat)) 0

/-- The syntax accepted by `strconv.ParseInt(s, 10, _)`: an optional sign
followed by one or more decimal digits (range checking is separate). -/
def parseIntGo : Str → Option Int
  | [] => none
  | '+' :: ds =>
    if ds ≠ [] && ds.all Char.isDigit then some (digitsToNat ds) else none
  | '-' :: ds =>
    if ds ≠ [] && ds.all Char.isDigit then some (-(digitsToNat ds : Int)) else none
  | ds =>
    if ds.all Char.isDigit then some (digitsToNat ds) else none

/-- `strconv.ParseInt(s, 10, 64)` as used with a checked error: `none` for a
syntax error or a value outside the signed 64-bit range. -/
def parseInt64Go (s : Str) : Option Int :=
  match parseIntGo s with
  | none => none
  | some n => if -(2 ^ 63) ≤ n ∧ n ≤ 2 ^ 63 - 1 then some n else none

/-- `strconv.Atoi(s)` with the error discarded: 0 on a syntax error, the
clamped boundary value on a range error, the parsed value otherwise. -/
def atoiGo (s : Str) : Int :=
  match parseIntGo s with
  | none => 0
  | some n =>
    if n < -(2 ^ 63) then -(2 ^ 63)
    else if 2 ^ 63 - 1 < n then 2 ^ 63 - 1
    else n

/-- The decimal-mantissa part of `strconv.ParseFloat`: digits with an
optional fraction, not both empty. -/
def parseMantissa (s : Str) : Option ℚ :=
  match goSplitOn '.' s with
  | [i] => if i ≠ [] && i.all Char.isDigit then some (digitsToNat i) else none
  | [i, f] =>
    if (i ≠ [] || f ≠ []) && i.all Char.isDigit && f.all Char.isDigit then
      some ((digitsToNat i : ℚ) + (digitsToNat f : ℚ) / (10 : ℚ) ^ f.length)
    else none
  | _ => none

/-- An optionally signed decimal exponent. -/
def parseExponent (s : Str) : Option Int :=
  match s with
  | '+' :: ds => if ds ≠ [] && ds.all Char.isDigit then some (digitsToNat ds) else none
  | '-' :: ds => if ds ≠ [] && ds.all Char.isDigit then some (-(digitsToNat ds : Int)) else none
  | ds => if ds ≠ [] && ds.all Char.isDigit then some (digitsToNat ds) else none

/-- The decimal syntax of `strconv.ParseFloat(s, 64)`, evaluated exactly in
`ℚ` (the embedding of `float64` values; the special forms `Inf`/`NaN`/hex
are not modelled, and out-of-range magnitudes are not special-cased). -/
def parseGoFloat? (s : Str) : Option ℚ :=
  let signAndRest : ℚ × Str :=
    match s with
    | '+' :: r => (1, r)
    | '-' :: r => (-1, r)
    | r => (1, r)
  match splitPred (fun c => c = 'e' || c = 'E') signAndRest.2 with
  | [m] => (parseMantissa m).map (fun q => signAndRest.1 * q)
  | [m, ex] =>
    match parseMantissa m, parseExponent ex with
    | some q, some e => some (signAndRest.1 * q * (10 : ℚ) ^ e)
    | _, _ => none
  | _ => none

/-- `strconv.ParseFloat` with the error discarded (`v, _ := ...`): an
unparsable field contributes 0. -/
def floatOr0 (s : Str) : ℚ := (parseGoFloat? s).getD 0

example : parseIntGo "-42".data = some (-42) := by decide
example : parseIntGo "".data = none := by decide
example : parseIntGo "12a".data = none := by decide
example : atoiGo "17".data = 17 := by decide
example : atoiGo "x".data = 0 := by decide
example : parseGoFloat? "N/A".data = none := by decide
example : parseGoFloat? "12.5".data ≠ none := by decide
example : parseGoFloat? "1.2.5".data = none := by decide
example : goFields "GPU: 0".data = ["GPU:".data, "0".data] := by decide
example : goSplitOn ':' "NAME: firefox".data = ["NAME".data, " firefox".data] := by decide
example : trimStr "  fire fox ".data = "fire fox".data := by decide
example : trimSuffixStr "500000000 ns".data " ns".data = "500000000".data := by decide
example : containsSub "x NAME: y".data "NAME:".data = true := by decide
example : strStartsWith "GPU: 1".data "GPU:".data = true := by decide

/-! ### Process records and the labeled-block process parser
(`getProcessInfo`, src/gpu_metrics.go lines 84-139)

Memory figures are `float64` in Go, embedded as exact rationals.  A line
`GPU:` with fewer than two whitespace fields makes the Go code panic on
`fields[1]`; the embedding returns `none` for such inputs. -/

/-- `type ProcessInfo struct` (gpu_metrics.go lines 24-33). -/
structure ProcessInfo where
  GPU : Int
  Name : Str
  PID : Str
  GTTMem : ℚ
  CPUMem : ℚ
  VRAMMem : ℚ
  TotalMem : ℚ
  GFXUsage : Str
deriving Repr, DecidableEq

/-- The Go zero value of `ProcessInfo`. -/
def ProcessInfo.zero : ProcessInfo :=
  { GPU := 0, Name := [], PID := [], GTTMem := 0, CPUMem := 0, VRAMMem := 0,
    TotalMem := 0, GFXUsage := [] }

/-- `strings.Split(line, ":")[1]`, defined whenever the line contains a
colon (every branch using it has checked `strings.Contains(line, "X:")`). -/
def splitColonField (line : Str) : Str := (goSplitOn ':' line).getD 1 []

/-- Round-to-nearest division, ties to even: the rounding of `fmt`'s
fixed-precision formatting. -/
def divNearestEven (a b : Nat) : Nat :=
  let q := a / b
  let r := a % b
  if 2 * r < b then q
  else if b < 2 * r then q + 1
  else if q % 2 = 0 then q else q + 1

/-- `fmt.Sprintf("%.1f%%", float64(gfxTime)/1e9*100)` for a positive
`gfxTime`, modelled with exact arithmetic: the real value `gfxTime / 1e7`
rendered with one decimal digit.  It coincides with the Go `float64`
computation whenever that computation is exact (for example at
`gfxTime = 5e8`, where `5e8/1e9*100 = 50.0` exactly). -/
def fmtPercentNanos (n : Int) : Str :=
  let tenths := divNearestEven n.toNat 1000000
  Nat.toDigits 10 (tenths / 10) ++ '.' :: Nat.toDigits 10 (tenths % 10) ++ ['%']

/-- The `GFX:` branch (gpu_metrics.go lines 122-129): trim an ` ns` suffix,
parse as a 64-bit integer, and format as a percentage when positive; any
error or non-positive value yields the literal `"0.0%"`. -/
def gfxUsageOf (gfxStr : Str) : Str :=
  let s := trimSuffixStr gfxStr " ns".data
  match parseInt64Go s with
  | some gfxTime => if 0 < gfxTime then fmtPercentNanos gfxTime else "0.0%".data
  | none => "0.0%".data

/-- The loop state of `getProcessInfo`: the current-device context
(initially -1), the in-progress record, and the flushed records. -/
structure PState where
  currentGPU : Int
  currentProcess : ProcessInfo
  processes : List ProcessInfo
deriving Repr, DecidableEq

/-- One iteration of the scanner loop of `getProcessInfo` (gpu_metrics.go
lines 97-131): dispatch on the first matching marker, in source order.
`none` models the Go panic on `strings.Fields(line)[1]` when a `GPU:` line
has no second field. -/
def procStep (s : PState) (line : Str) : Option PState :=
  if strStartsWith line "GPU:".data then
    match (goFields line).get? 1 with
    | none => none
    | some f => some { s with currentGPU := atoiGo f }
  else if containsSub line "NAME:".data then
    some { s with
      processes :=
        if s.currentProcess.Name ≠ [] then s.processes ++ [s.currentProcess]
        else s.processes,
      currentProcess :=
        { ProcessInfo.zero with
          GPU := s.currentGPU,
          Name := trimStr (splitColonField line) } }
  else if containsSub line "PID:".data then
    some { s with currentProcess :=
      { s.currentProcess with PID := trimStr (splitColonField line) } }
  else if containsSub line "GTT_MEM:".data then
    some { s with currentProcess :=
      { s.currentProcess with
        GTTMem := floatOr0 (trimSuffixStr (trimStr (splitColonField line)) " MB".data) } }
  else if containsSub line "CPU_MEM:".data then
    some { s with currentProcess :=
      { s.currentProcess with
        CPUMem := floatOr0 (trimSuffixStr (trimStr (splitColonField line)) " MB".data) } }
  else if containsSub line "VRAM_MEM:".data then
    some { s with currentProcess :=
      { s.currentProcess with
        VRAMMem := floatOr0 (trimSuffixStr (trimStr (splitColonField line)) " MB".data) } }
  else if containsSub line "MEM_USAGE:".data then
    some { s with currentProcess :=
      { s.currentProcess with
        TotalMem := floatOr0 (trimSuffixStr (trimStr (splitColonField line)) " MB".data) } }
  else if containsSub line "GFX:".data then
    some { s with currentProcess :=
      { s.currentProcess with GFXUsage := gfxUsageOf (trimStr (splitColonField line)) } }
  else some s

/-- `getProcessInfo` on the scanned lines of the command output: fold the
scanner loop from the initial state (`currentGPU = -1`), then flush the
final in-progress record if it has a non-empty name (lines 133-136). -/
def getProcessInfoBlock (lines : List Str) : Option (List ProcessInfo) :=
  match lines.foldlM procStep ⟨-1, ProcessInfo.zero, []⟩ with
  | none => none
  | some s =>
    some (if s.currentProcess.Name ≠ [] then s.processes ++ [s.currentProcess]
          else s.processes)

/-- A line the parser's dispatch treats as a name-marker line: it is not a
device-marker line (`GPU:` prefix wins in the else-if chain) and contains
the `NAME:` marker. -/
def isNameLine (l : Str) : Bool :=
  !(strStartsWith l "GPU:".data) && containsSub l "NAME:".data

/-- The name text the parser extracts from a name-marker line. -/
def extractedName (l : Str) : Str := trimStr (splitColonField l)

/-- A name-marker line whose extracted name is non-empty — exactly the lines
that contribute one flushed record each. -/
def goodNameLine (l : Str) : Bool := isNameLine l && extractedName l ≠ []

example :
    getProcessInfoBlock ["NAME: firefox".data]
      = some [{ ProcessInfo.zero with GPU := -1, Name := "firefox".data }] := by
  decide
example : gfxUsageOf "500000000".data = "50.0%".data := by decide
example : gfxUsageOf "500000000 ns".data = "50.0%".data := by decide
example : gfxUsageOf "0".data = "0.0%".data := by decide

/-- The number of records the parser state will eventually produce: flushed
records plus the in-progress record if it has a non-empty name. -/
def PState.recCount (s : PState) : Nat :=
  s.processes.length + (if s.currentProcess.Name ≠ [] then 1 else 0)

theorem procStep_gpu {s s' : PState} {l : Str}
    (h : procStep s l = some s')
    (hgpu : strStartsWith l "GPU:".data = true) :
    s'.processes = s.processes ∧ s'.currentProcess = s.currentProcess := by
  unfold procStep at h
  simp only [hgpu, if_true] at h
  cases hf : (goFields l).get? 1 with
  | none => rw [hf] at h; cases h
  | some f =>
    rw [hf] at h
    simp only [Option.some.injEq] at h
    subst h
    exact ⟨rfl, rfl⟩

theorem procStep_name {s s' : PState} {l : Str}
    (h : procStep s l = some s')
    (hgpu : strStartsWith l "GPU:".data = false)
    (hname : containsSub l "NAME:".data = true) :
    s'.processes = (if s.currentProcess.Name ≠ [] then
        s.processes ++ [s.currentProcess] else s.processes)
    ∧ s'.currentProcess.Name = extractedName l
    ∧ s'.currentProcess.GPU = s.currentGPU
    ∧ s'.currentGPU = s.currentGPU := by
  unfold procStep at h
  simp only [hgpu, hname, Bool.false_eq_true, if_false, if_true] at h
  simp only [Option.some.injEq] at h
  subst h
  exact ⟨rfl, rfl, rfl, rfl⟩

theorem procStep_frame {s s' : PState} {l : Str}
    (h : procStep s l = some s')
    (hgpu : strStartsWith l "GPU:".data = false)
    (hname : containsSub l "NAME:".data = false) :
    s'.processes = s.processes
    ∧ s'.currentProcess.Name = s.currentProcess.Name
    ∧ s'.currentProcess.GPU = s.currentProcess.GPU
    ∧ s'.currentGPU = s.currentGPU := by
  unfold procStep at h
  simp only [hgpu, hname, Bool.false_eq_true, if_false] at h
  repeat' split at h
  all_goals
    simp only [Option.some.injEq] at h
  all_goals subst h
  all_goals exact ⟨rfl, rfl, rfl, rfl⟩

theorem procStep_recCount {s s' : PState} {l : Str}
    (h : procStep s l = some s') :
    s'.recCount = s.recCount + (if goodNameLine l then 1 else 0) := by
  by_cases hgpu : strStartsWith l "GPU:".data = true
  · obtain ⟨hp, hc⟩ := procStep_gpu h hgpu
    have hgn : goodNameLine l = false := by
      simp [goodNameLine, isNameLine, hgpu]
    simp [PState.recCount, hp, hc, hgn]
  · have hgpu' : strStartsWith l "GPU:".data = false := by
      simpa using hgpu
    by_cases hname : containsSub l "NAME:".data = true
    · obtain ⟨hp, hn, _, _⟩ := procStep_name h hgpu' hname
      have hgn : goodNameLine l = (decide (extractedName l ≠ [])) := by
        simp [goodNameLine, isNameLine, hgpu', hname]
      by_cases hex : extractedName l ≠ []
      · by_cases hold : s.currentProcess.Name ≠ [] <;>
          simp [PState.recCount, hp, hn, hgn, hex, hold]
      · by_cases hold : s.currentProcess.Name ≠ [] <;>
          simp [PState.recCount, hp, hn, hgn, hex, hold]
    · have hname' : containsSub l "NAME:".data = false := by
        simpa using hname
      obtain ⟨hp, hn, _, _⟩ := procStep_frame h hgpu' hname'
      have hgn : goodNameLine l = false := by
        simp [goodNameLine, isNameLine, hname']
      simp [PState.recCount, hp, hn, hgn]

theorem foldlM_recCount (lines : List Str) (s s' : PState)
    (h : lines.foldlM procStep s = some s') :
    s'.recCount = s.recCount + lines.countP goodNameLine := by
  induction lines generalizing s with
  | nil =>
    simp only [List.foldlM_nil, pure, Option.some.injEq] at h
    subst h
    simp
  | cons l ls ih =>
    rw [List.foldlM_cons] at h
    cases hstep : procStep s l with
    | none => rw [hstep] at h; cases h
    | some s1 =>
      rw [hstep] at h
      simp only [Option.bind_eq_bind, Option.some_bind] at h
      have h1 := procStep_recCount hstep
      have h2 := ih s1 h
      rw [h2, h1, List.countP_cons]
      by_cases hgn : goodNameLine l = true <;> simp [hgn] <;> omega

/-- C3: for every input to the labeled-block process parser that completes
without a runtime panic, the number of returned records equals the number of
name-marker lines (lines the dispatch treats as `NAME:` lines) whose
extracted name text is non-empty; the final in-progress record is included
via the flush after the last line. -/
theorem C3_record_count (lines : List Str) (recs : List ProcessInfo)
    (h : getProcessInfoBlock lines = some recs) :
    recs.length = lines.countP goodNameLine := by
  unfold getProcessInfoBlock at h
  cases hf : lines.foldlM procStep ⟨-1, ProcessInfo.zero, []⟩ with
  | none => rw [hf] at h; cases h
  | some s =>
    rw [hf] at h
    simp only [Option.some.injEq] at h
    have hc := foldlM_recCount lines _ s hf
    have hinit : (⟨-1, ProcessInfo.zero, []⟩ : PState).recCount = 0 := rfl
    rw [hinit] at hc
    subst h
    unfold PState.recCount at hc
    by_cases hn : s.currentProcess.Name ≠ []
    · rw [if_pos hn] at hc ⊢
      rw [List.length_append]
      simp only [List.length_cons, List.length_nil]
      omega
    · rw [if_neg hn] at hc ⊢
      omega

/-- C3 witness: a device line, two named records (the second flushed by the
trailing-flush path being triggered by an empty-name marker line), a junk
line, and an empty-name `NAME:` line. -/
theorem C3_record_count_witness :
    ([{ ProcessInfo.zero with GPU := 0, Name := "firefox".data, PID := "1".data },
      { ProcessInfo.zero with GPU := 0, Name := "chrome".data }] : List ProcessInfo).length
    = (["GPU: 0".data, "NAME: firefox".data, "PID: 1".data, "NAME: chrome".data,
        "JUNK".data, "NAME:".data] : List Str).countP goodNameLine :=
  C3_record_count _ _ (by decide)

/-- The invariant behind C10: while no device-marker line has been seen, the
current-device context is still -1, every flushed record carries device
index -1, and so does the in-progress record once it has a name. -/
def NoGPUCtx (s : PState) : Prop :=
  s.currentGPU = -1 ∧ (∀ r ∈ s.processes, r.GPU = -1)
  ∧ (s.currentProcess.Name ≠ [] → s.currentProcess.GPU = -1)

theorem procStep_noGPUCtx {s s' : PState} {l : Str}
    (h : procStep s l = some s')
    (hl : strStartsWith l "GPU:".data = false)
    (hs : NoGPUCtx s) : NoGPUCtx s' := by
  obtain ⟨hcur, hall, hcp⟩ := hs
  by_cases hname : containsSub l "NAME:".data = true
  · obtain ⟨hp, hn, hg, hc⟩ := procStep_name h hl hname
    refine ⟨hc.trans hcur, ?_, ?_⟩
    · intro r hr
      rw [hp] at hr
      by_cases hold : s.currentProcess.Name ≠ []
      · rw [if_pos hold] at hr
        rcases List.mem_append.mp hr with hr | hr
        · exact hall r hr
        · rw [List.mem_singleton.mp hr]; exact hcp hold
      · rw [if_neg hold] at hr
        exact hall r hr
    · intro _
      rw [hg, hcur]
  · have hname' : containsSub l "NAME:".data = false := by simpa using hname
    obtain ⟨hp, hn, hg, hc⟩ := procStep_frame h hl hname'
    refine ⟨hc.trans hcur, ?_, ?_⟩
    · intro r hr; rw [hp] at hr; exact hall r hr
    · intro hne
      rw [hn] at hne
      rw [hg]
      exact hcp hne

theorem foldlM_noGPUCtx (lines : List Str) (s s' : PState)
    (hng : ∀ l ∈ lines, strStartsWith l "GPU:".data = false)
    (h : lines.foldlM procStep s = some s')
    (hs : NoGPUCtx s) : NoGPUCtx s' := by
  induction lines generalizing s with
  | nil =>
    simp only [List.foldlM_nil, pure, Option.some.injEq] at h
    subst h; exact hs
  | cons l ls ih =>
    rw [List.foldlM_cons] at h
    cases hstep : procStep s l with
    | none => rw [hstep] at h; cases h
    | some s1 =>
      rw [hstep] at h
      simp only [Option.bind_eq_bind, Option.some_bind] at h
      exact ih s1 (fun x hx => hng x (List.mem_cons_of_mem l hx)) h
        (procStep_noGPUCtx hstep (hng l (List.mem_cons_self l ls)) hs)

/-- C10: on an input with no device-marker line, every record the
labeled-block parser emits inherits the initial current-device context -1 —
the parser can emit records with a negative device index. -/
theorem C10_default_device_negative (lines : List Str) (recs : List ProcessInfo)
    (hng : ∀ l ∈ lines, strStartsWith l "GPU:".data = false)
    (h : getProcessInfoBlock lines = some recs) :
    ∀ r ∈ recs, r.GPU = -1 := by
  unfold getProcessInfoBlock at h
  cases hf : lines.foldlM procStep ⟨-1, ProcessInfo.zero, []⟩ with
  | none => rw [hf] at h; cases h
  | some s =>
    rw [hf] at h
    simp only [Option.some.injEq] at h
    have hinv : NoGPUCtx s := by
      refine foldlM_noGPUCtx lines _ s hng hf ⟨rfl, ?_, ?_⟩
      · intro r hr; cases hr
      · intro hne; cases hne rfl
    obtain ⟨_, hall, hcp⟩ := hinv
    subst h
    intro r hr
    by_cases hn : s.currentProcess.Name ≠ []
    · rw [if_pos hn] at hr
      rcases List.mem_append.mp hr with hr | hr
      · exact hall r hr
      · rw [List.mem_singleton.mp hr]; exact hcp hn
    · rw [if_neg hn] at hr
      exact hall r hr

/-- C10 witness: a name-marker line with no preceding device-marker line
produces a record with device index -1. -/
theorem C10_default_device_negative_witness :
    ({ ProcessInfo.zero with GPU := -1, Name := "firefox".data } : ProcessInfo).GPU = -1 :=
  C10_default_device_negative ["NAME: firefox".data]
    [{ ProcessInfo.zero with GPU := -1, Name := "firefox".data }]
    (by decide) (by decide) _ (by decide)

/-- C4: in the labeled-block parser's `GFX:` branch, a value of 5e8
nanoseconds (with or without the ` ns` suffix) yields the string `"50.0%"`
(the value divided by 1e9, times 100, one decimal, percent sign), while a
value of 0, any negative value, and any unparsable text yield exactly
`"0.0%"`. -/
theorem C4_gfx_normalization :
    gfxUsageOf "500000000".data = "50.0%".data
    ∧ gfxUsageOf "500000000 ns".data = "50.0%".data
    ∧ gfxUsageOf "0".data = "0.0%".data
    ∧ (∀ s : Str, ∀ n : Int,
        parseInt64Go (trimSuffixStr s " ns".data) = some n → n < 0 →
        gfxUsageOf s = "0.0%".data)
    ∧ (∀ s : Str, parseInt64Go (trimSuffixStr s " ns".data) = none →
        gfxUsageOf s = "0.0%".data) := by
  refine ⟨by decide, by decide, by decide, ?_, ?_⟩
  · intro s n hp hneg
    simp only [gfxUsageOf, hp]
    rw [if_neg (by omega)]
  · intro s hp
    simp only [gfxUsageOf, hp]

/-- C4 witness: the negative and unparsable clauses at `-5` and `abc`. -/
theorem C4_gfx_normalization_witness :
    gfxUsageOf "-5".data = "0.0%".data ∧ gfxUsageOf "abc".data = "0.0%".data :=
  ⟨C4_gfx_normalization.2.2.2.1 "-5".data (-5) (by decide) (by decide),
   C4_gfx_normalization.2.2.2.2 "abc".data (by decide)⟩

/-! ### The device-metrics parser (`getGPUMetrics`, gpu_metrics.go lines
35-82): header line skipped, comma-split rows, rows with fewer than 17
fields skipped, numeric fields defaulting to zero on a parse failure. -/

/-- `type GPUMetrics struct` (gpu_metrics.go lines 11-22). -/
structure GPUMetrics where
  ID : Int
  Power : ℚ
  GPUTemp : ℚ
  MemTemp : ℚ
  GFXUtil : ℚ
  GFXClock : ℚ
  MemUtil : ℚ
  MemClock : ℚ
  VRAMUsed : ℚ
  VRAMTotal : ℚ
deriving Repr, DecidableEq

/-- The record built from one accepted row (gpu_metrics.go lines 56-78);
only evaluated under the length-at-least-17 guard, so every index is in
range. -/
def parseRowGPU (fields : List Str) : GPUMetrics :=
  { ID := atoiGo (fields.getD 0 []),
    Power := floatOr0 (fields.getD 1 []),
    GPUTemp := floatOr0 (fields.getD 2 []),
    MemTemp := floatOr0 (fields.getD 3 []),
    GFXUtil := floatOr0 (fields.getD 4 []),
    GFXClock := floatOr0 (fields.getD 5 []),
    MemUtil := floatOr0 (fields.getD 6 []),
    MemClock := floatOr0 (fields.getD 7 []),
    VRAMUsed := floatOr0 (fields.getD 15 []),
    VRAMTotal := floatOr0 (fields.getD 16 []) }

/-- The scanner loop of `getGPUMetrics` (lines 48-79). -/
def parseMetricsLines : List Str → List GPUMetrics
  | [] => []
  | line :: rest =>
    let fields := goSplitOn ',' line
    if fields.length < 17 then parseMetricsLines rest
    else parseRowGPU fields :: parseMetricsLines rest

/-- `getGPUMetrics` on the scanned lines: the first (header) line is
consumed by the initial `scanner.Scan()`. -/
def getGPUMetricsLines (lines : List Str) : List GPUMetrics :=
  parseMetricsLines (lines.drop 1)

theorem parseMetricsLines_cons (line : Str) (rest : List Str) :
    parseMetricsLines (line :: rest)
      = if (goSplitOn ',' line).length < 17 then parseMetricsLines rest
        else parseRowGPU (goSplitOn ',' line) :: parseMetricsLines rest := rfl

theorem parseMetricsLines_length (ls : List Str) :
    (parseMetricsLines ls).length
      = ls.countP (fun l => decide (17 ≤ (goSplitOn ',' l).length)) := by
  induction ls with
  | nil => rfl
  | cons l rest ih =>
    rw [List.countP_cons, parseMetricsLines_cons]
    by_cases hlen : (goSplitOn ',' l).length < 17
    · rw [if_pos hlen, ih]
      have hd : decide (17 ≤ (goSplitOn ',' l).length) = false := by
        simpa using hlen
      rw [hd]
      simp
    · rw [if_neg hlen]
      have hd : decide (17 ≤ (goSplitOn ',' l).length) = true := by
        simpa using hlen
      rw [hd]
      simp [ih]

/-- C5: in the device-metrics parser, every non-header row with fewer than
17 fields is skipped without error and without affecting sibling rows; every
non-header row with at least 17 fields yields exactly one record in place;
and a numeric field that fails to parse contributes zero to its record
field. -/
theorem C5_metrics_row_handling :
    (∀ lines : List Str, (getGPUMetricsLines lines).length
        = (lines.drop 1).countP (fun l => decide (17 ≤ (goSplitOn ',' l).length)))
    ∧ (∀ xs ys : List Str, ∀ bad : Str, (goSplitOn ',' bad).length < 17 →
        parseMetricsLines (xs ++ bad :: ys) = parseMetricsLines (xs ++ ys))
    ∧ (∀ xs ys : List Str, ∀ good : Str, 17 ≤ (goSplitOn ',' good).length →
        parseMetricsLines (xs ++ good :: ys)
          = parseMetricsLines xs ++ parseRowGPU (goSplitOn ',' good)
              :: parseMetricsLines ys)
    ∧ (∀ fields : List Str,
        (parseIntGo (fields.getD 0 []) = none → (parseRowGPU fields).ID = 0)
        ∧ (parseGoFloat? (fields.getD 1 []) = none → (parseRowGPU fields).Power = 0)
        ∧ (parseGoFloat? (fields.getD 2 []) = none → (parseRowGPU fields).GPUTemp = 0)
        ∧ (parseGoFloat? (fields.getD 3 []) = none → (parseRowGPU fields).MemTemp = 0)
        ∧ (parseGoFloat? (fields.getD 4 []) = none → (parseRowGPU fields).GFXUtil = 0)
        ∧ (parseGoFloat? (fields.getD 5 []) = none → (parseRowGPU fields).GFXClock = 0)
        ∧ (parseGoFloat? (fields.getD 6 []) = none → (parseRowGPU fields).MemUtil = 0)
        ∧ (parseGoFloat? (fields.getD 7 []) = none → (parseRowGPU fields).MemClock = 0)
        ∧ (parseGoFloat? (fields.getD 15 []) = none → (parseRowGPU fields).VRAMUsed = 0)
        ∧ (parseGoFloat? (fields.getD 16 []) = none → (parseRowGPU fields).VRAMTotal = 0)) := by
  refine ⟨?_, ?_, ?_, ?_⟩
  · intro lines
    exact parseMetricsLines_length (lines.drop 1)
  · intro xs ys bad hbad
    induction xs with
    | nil =>
      simp only [List.nil_append]
      rw [parseMetricsLines_cons, if_pos hbad]
    | cons x xs ih =>
      simp only [List.cons_append]
      rw [parseMetricsLines_cons, parseMetricsLines_cons, ih]
  · intro xs ys good hgood
    induction xs with
    | nil =>
      simp only [List.nil_append]
      rw [parseMetricsLines_cons, if_neg (by omega)]
      rfl
    | cons x xs ih =>
      simp only [List.cons_append]
      rw [parseMetricsLines_cons, parseMetricsLines_cons, ih]
      by_cases hx : (goSplitOn ',' x).length < 17
      · rw [if_pos hx, if_pos hx]
      · rw [if_neg hx, if_neg hx]
        simp
  · intro fields
    refine ⟨?_, ?_, ?_, ?_, ?_, ?_, ?_, ?_, ?_, ?_⟩ <;>
      intro hp <;> simp only [parseRowGPU, atoiGo, floatOr0] <;> rw [hp] <;> rfl

/-- C5 witness: a skipped short row between two 17-field rows, the in-place
one-record clause, and the zero defaults on an unparsable row. -/
theorem C5_metrics_row_handling_witness :
    parseMetricsLines
        (["a,b".data] ++ "x".data :: ["c,d".data])
      = parseMetricsLines (["a,b".data] ++ ["c,d".data])
    ∧ parseMetricsLines
        ([] ++ "0,1,2,3,4,5,6,7,8,9,10,11,12,13,14,15,16".data :: [])
      = parseMetricsLines []
          ++ parseRowGPU (goSplitOn ',' "0,1,2,3,4,5,6,7,8,9,10,11,12,13,14,15,16".data)
            :: parseMetricsLines []
    ∧ (parseRowGPU ["zz".data, "yy".data]).ID = 0
    ∧ (parseRowGPU ["zz".data, "yy".data]).Power = 0 :=
  ⟨C5_metrics_row_handling.2.1 ["a,b".data] ["c,d".data] "x".data (by decide),
   C5_metrics_row_handling.2.2.1 [] [] "0,1,2,3,4,5,6,7,8,9,10,11,12,13,14,15,16".data
     (by decide),
   (C5_metrics_row_handling.2.2.2 ["zz".data, "yy".data]).1 (by decide),
   (C5_metrics_row_handling.2.2.2 ["zz".data, "yy".data]).2.1 (by decide)⟩

/-! ### The CSV-variant process parser (`getProcessInfo`,
src/unnamed/part_001 lines 460-517)

The Go code reads rows through `encoding/csv`.  The model covers its
behaviour on quote-free input (no `"` character in any line — the theorems
below restrict themselves to that scope): fields split on commas, blank
lines skipped, and the reader's `FieldsPerRecord` consistency check —
initialized by the header read — turning any row with a different field
count into a `Read` error, which the Go function returns for the whole
batch.  The Go row body indexes `record[1]` and `record[2..8]`
unconditionally, so it panics on an accepted row with fewer than 2
(respectively 9) fields; the model returns `none` (outer `Option`) for such
a panic, `some none` for a silently dropped row, and `some (some p)` for a
produced record. -/

/-- The per-row body of the CSV loop (lines 486-513): panic (`none`) when
`record[1]` is out of range; skip (`some none`) the no-running-processes
marker row and a row whose device index fails to parse (`strconv.Atoi`
error checked); otherwise panic (`none`) when any of `record[2..8]` is out
of range, else build the record, dividing the byte-valued memory fields by
1024 twice and ignoring their parse errors. -/
def csvProcessRow (record : List Str) : Option (Option ProcessInfo) :=
  if record.length < 2 then none
  else if containsSub (record.getD 1 []) "No running processes detected".data then
    some none
  else
    match parseInt64Go (record.getD 0 []) with
    | none => some none
    | some gpuID =>
      if record.length < 9 then none
      else
        some (some
          { GPU := gpuID,
            Name := record.getD 3 [],
            PID := record.getD 4 [],
            GFXUsage := record.getD 6 [] ++ "%".data,
            VRAMMem := floatOr0 (record.getD 2 []) / 1024 / 1024,
            CPUMem := floatOr0 (record.getD 5 []) / 1024 / 1024,
            GTTMem := floatOr0 (record.getD 7 []) / 1024 / 1024,
            TotalMem := floatOr0 (record.getD 8 []) / 1024 / 1024 })

/-- The read loop (lines 477-514): a row whose field count differs from the
header's is a csv `Read` error and aborts the whole batch; a panic in the
row body (`none`) aborts the run. -/
def csvLoop (n : Nat) :
    List Str → List ProcessInfo → Option (Except Str (List ProcessInfo))
  | [], acc => some (.ok acc)
  | row :: rest, acc =>
    let record := goSplitOn ',' row
    if record.length ≠ n then some (.error "failed to read CSV record".data)
    else
      match csvProcessRow record with
      | none => none
      | some none => csvLoop n rest acc
      | some (some p) => csvLoop n rest (acc ++ [p])

/-- `getProcessInfo` (CSV variant) on the lines of the command output: an
empty output fails the header read; the header's field count becomes the
expected count for every subsequent row.  `none` models a runtime panic. -/
def getProcessInfoCSV (lines : List Str) : Option (Except Str (List ProcessInfo)) :=
  match lines.filter (fun l => l ≠ []) with
  | [] => some (.error "failed to read CSV header".data)
  | header :: rows => csvLoop (goSplitOn ',' header).length rows []

theorem csvProcessRow_total (record : List Str) (h9 : 9 ≤ record.length) :
    csvProcessRow record = some ((csvProcessRow record).join) := by
  unfold csvProcessRow
  rw [if_neg (by omega)]
  split
  · rfl
  · split
    · rfl
    · rw [if_neg (by omega)]
      rfl

theorem csvLoop_ok (n : Nat) (h9 : 9 ≤ n) (rows : List Str)
    (acc : List ProcessInfo)
    (hall : ∀ r ∈ rows, (goSplitOn ',' r).length = n) :
    csvLoop n rows acc
      = some (.ok (acc
          ++ rows.filterMap (fun r => (csvProcessRow (goSplitOn ',' r)).join))) := by
  induction rows generalizing acc with
  | nil => simp [csvLoop]
  | cons row rest ih =>
    have hrow : (goSplitOn ',' row).length = n :=
      hall row (List.mem_cons_self row rest)
    have hrest : ∀ r ∈ rest, (goSplitOn ',' r).length = n :=
      fun r hr => hall r (List.mem_cons_of_mem row hr)
    have htot := csvProcessRow_total (goSplitOn ',' row) (by omega)
    unfold csvLoop
    rw [if_neg (by omega), htot]
    cases hj : (csvProcessRow (goSplitOn ',' row)).join with
    | none =>
      show csvLoop n rest acc = _
      rw [ih acc hrest]
      have hfm : List.filterMap (fun r => (csvProcessRow (goSplitOn ',' r)).join)
            (row :: rest)
          = List.filterMap (fun r => (csvProcessRow (goSplitOn ',' r)).join) rest := by
        simp only [List.filterMap_cons, hj]
      rw [hfm]
    | some p =>
      show csvLoop n rest (acc ++ [p]) = _
      rw [ih (acc ++ [p]) hrest]
      have hfm : List.filterMap (fun r => (csvProcessRow (goSplitOn ',' r)).join)
            (row :: rest)
          = p :: List.filterMap (fun r => (csvProcessRow (goSplitOn ',' r)).join)
              rest := by
        simp only [List.filterMap_cons, hj]
      rw [hfm]
      simp

/-- C6 counterexample: a row with insufficient fields (`"0,2"`, two fields
against the header's nine) makes the parser return an error for the whole
batch, and the well-formed sibling row after it is not returned — the claim
that a malformed row never causes a whole-batch error fails. -/
theorem C6_batch_abort_counterexample :
    getProcessInfoCSV
      ["gpu,pid,vram,name,pid2,cpu,gfx,gtt,mem".data,
       "0,2".data,
       "1,x,1048576,chrome,12,0,55,0,0".data]
      = some (Except.error "failed to read CSV record".data) := rfl

/-- C6 amended: on quote-free input whose header has at least the 9 fields
the row body indexes and in which every row has the header's field count —
exactly the scope on which the Go code neither errors on the field-count
check nor panics — the parser returns the records of all well-formed rows:
marker rows and rows with an unparsable device index are dropped silently
at row granularity, sibling rows are kept, and an unparsable numeric memory
field defaults to zero at field granularity.  A row with a deviating field
count (e.g. insufficient fields) aborts the whole batch with an error
instead. -/
theorem C6_csv_row_granularity (header : Str) (rows : List Str)
    (hh : header ≠ [])
    (hr : ∀ r ∈ rows, r ≠ [])
    (hq : ∀ l ∈ header :: rows, '"' ∉ l)
    (h9 : 9 ≤ (goSplitOn ',' header).length)
    (hc : ∀ r ∈ rows, (goSplitOn ',' r).length = (goSplitOn ',' header).length) :
    getProcessInfoCSV (header :: rows)
      = some (Except.ok
          (rows.filterMap (fun r => (csvProcessRow (goSplitOn ',' r)).join)))
    ∧ (∀ record : List Str, 2 ≤ record.length →
        containsSub (record.getD 1 []) "No running processes detected".data = true →
        csvProcessRow record = some none)
    ∧ (∀ record : List Str, 2 ≤ record.length →
        parseInt64Go (record.getD 0 []) = none → csvProcessRow record = some none)
    ∧ (∀ record : List Str, ∀ g : Int, 9 ≤ record.length →
        containsSub (record.getD 1 []) "No running processes detected".data = false →
        parseInt64Go (record.getD 0 []) = some g →
        parseGoFloat? (record.getD 2 []) = none →
        ((csvProcessRow record).join).map ProcessInfo.VRAMMem = some 0) := by
  refine ⟨?_, ?_, ?_, ?_⟩
  · unfold getProcessInfoCSV
    have hfl : (header :: rows).filter (fun l => decide (l ≠ [])) = header :: rows := by
      rw [List.filter_cons_of_pos (by simpa using hh)]
      rw [List.filter_eq_self.mpr (fun a ha => by simpa using hr a ha)]
    rw [hfl]
    show csvLoop (goSplitOn ',' header).length rows [] = _
    rw [csvLoop_ok _ h9 rows [] hc]
    simp
  · intro record h2 hm
    unfold csvProcessRow
    rw [if_neg (by omega), if_pos hm]
  · intro record h2 hg
    unfold csvProcessRow
    rw [if_neg (by omega)]
    split
    · rfl
    · rw [hg]
  · intro record g h9r hm hg hf
    unfold csvProcessRow
    rw [if_neg (by omega), if_neg (by simp only [hm]; decide)]
    simp only [hg]
    rw [if_neg (by omega)]
    show some (floatOr0 (record.getD 2 []) / 1024 / 1024) = some 0
    unfold floatOr0
    rw [hf]
    simp

/-- C6 witness: a nine-field quote-free header, a marker row, a row with an
unparsable device index, and a well-formed row whose VRAM field is
unparsable. -/
theorem C6_csv_row_granularity_witness :
    getProcessInfoCSV
        ("a,b,c,d,e,f,g,h,i".data
          :: ["0,No running processes detected,,,,,,,".data,
              "x,y,z,n,p,c,g,t,m".data,
              "1,ok,zz,chrome,12,0,55,0,0".data])
      = some (Except.ok
          ((["0,No running processes detected,,,,,,,".data,
             "x,y,z,n,p,c,g,t,m".data,
             "1,ok,zz,chrome,12,0,55,0,0".data] : List Str).filterMap
            (fun r => (csvProcessRow (goSplitOn ',' r)).join)))
    ∧ csvProcessRow (goSplitOn ',' "0,No running processes detected,,,,,,,".data)
        = some none
    ∧ csvProcessRow (goSplitOn ',' "x,y,z,n,p,c,g,t,m".data) = some none
    ∧ ((csvProcessRow (goSplitOn ',' "1,ok,zz,chrome,12,0,55,0,0".data)).join).map
        ProcessInfo.VRAMMem = some 0 := by
  refine ⟨(C6_csv_row_granularity _ _ (by decide) (by decide) (by decide)
      (by decide) (by decide)).1,
    (C6_csv_row_granularity "a,b,c,d,e,f,g,h,i".data [] (by decide) (by decide)
      (by decide) (by decide) (by decide)).2.1 _ (by decide) (by decide),
    (C6_csv_row_granularity "a,b,c,d,e,f,g,h,i".data [] (by decide) (by decide)
      (by decide) (by decide) (by decide)).2.2.1 _ (by decide) (by decide),
    (C6_csv_row_granularity "a,b,c,d,e,f,g,h,i".data [] (by decide) (by decide)
      (by decide) (by decide) (by decide)).2.2.2 _ 1 (by decide) (by decide)
      (by decide) (by decide)⟩


/-! ### The process-table sort (`updateProcessList`, main.go lines 117-175)

`sort.Slice` is modelled by the insertion sort that Go's `sort` package
applies to slices of at most 12 elements (`pdqsort` delegates short ranges
to `insertionSort`); pdqsort's partitioning path for longer slices is not
modelled, and every list this file evaluates the sort on is within the
12-element bound.  The comparator closure of main.go lines 151-167 is
translated exactly.  Go's byte-lexicographic string `<` is `strLtB`. -/

/-- Go's string `<`: lexicographic comparison (byte order on UTF-8 text
coincides with the code-point order compared here). -/
def strLtB : Str → Str → Bool
  | _, [] => false
  | [], _ :: _ => true
  | a :: as, b :: bs => if a < b then true else if b < a then false else strLtB as bs

theorem strLtB_nil_right (a : Str) : strLtB a [] = false := by
  cases a <;> rfl

theorem strLtB_asymm : ∀ a b : Str, strLtB a b = true → strLtB b a = false := by
  intro a
  induction a with
  | nil =>
    intro b h
    cases b with
    | nil => cases h
    | cons y ys => rfl
  | cons x xs ih =>
    intro b h
    cases b with
    | nil => rw [strLtB_nil_right] at h; cases h
    | cons y ys =>
      unfold strLtB at h ⊢
      by_cases hxy : x < y
      · rw [if_neg (lt_asymm hxy), if_pos hxy]
      · rw [if_neg hxy] at h
        by_cases hyx : y < x
        · rw [if_pos hyx] at h; cases h
        · rw [if_neg hyx] at h
          rw [if_neg hyx, if_neg hxy]
          exact ih ys h

theorem strLtB_nlt_trans : ∀ a b c : Str,
    strLtB a b = false → strLtB b c = false → strLtB a c = false := by
  intro a
  induction a with
  | nil =>
    intro b c h1 h2
    cases b with
    | nil =>
      cases c with
      | nil => rfl
      | cons z cs => cases h2
    | cons y bs => cases h1
  | cons x xs ih =>
    intro b c h1 h2
    cases c with
    | nil => exact strLtB_nil_right _
    | cons z cs =>
      cases b with
      | nil => cases h2
      | cons y bs =>
        unfold strLtB at h1 h2 ⊢
        by_cases hxy : x < y
        · rw [if_pos hxy] at h1; cases h1
        · rw [if_neg hxy] at h1
          by_cases hyz : y < z
          · rw [if_pos hyz] at h2; cases h2
          · rw [if_neg hyz] at h2
            have hzx : ¬ x < z := fun hxz =>
              hxy (lt_of_lt_of_le hxz (le_of_not_lt hyz))
            rw [if_neg hzx]
            by_cases hzx' : z < x
            · rw [if_pos hzx']
            · rw [if_neg hzx']
              have hxz : x = z :=
                le_antisymm (le_of_not_lt hzx') (le_of_not_lt hzx)
              have hyx : y ≤ x := le_of_not_lt hxy
              have hxy' : x ≤ y := hxz ▸ le_of_not_lt hyz
              have hyeq : y = x := le_antisymm hyx hxy'
              rw [if_neg (by rw [hyeq]; exact lt_irrefl x)] at h1
              rw [if_neg (by rw [hyeq, hxz]; exact lt_irrefl z)] at h2
              exact ih bs cs h1 h2

/-- One outer iteration of Go's `insertionSort`: bubble `x` leftwards past
every element it is `lt`-below.  The list is the already-sorted prefix in
reversed order (head = rightmost element), which matches the inner loop's
right-to-left swap order. -/
def insRev (lt : α → α → Bool) (x : α) : List α → List α
  | [] => [x]
  | z :: zs => if lt x z then z :: insRev lt x zs else x :: z :: zs

/-- Go's `insertionSort` over the comparator `lt`: the algorithm `sort.Slice`
runs on slices of at most 12 elements (its pdqsort hands such ranges to
`insertionSort` directly); longer slices take pdqsort's partitioning path,
which this model does not cover. -/
def goInsertionSort (lt : α → α → Bool) (xs : List α) : List α :=
  (xs.foldl (fun acc y => insRev lt y acc) []).reverse

example :
    goInsertionSort (fun a b : Nat => decide (a < b)) [3, 1, 2, 1, 5]
      = [1, 1, 2, 3, 5] := by decide

theorem insRev_eq_takeWhile (lt : α → α → Bool) (x : α) (w : List α) :
    insRev lt x w
      = w.takeWhile (fun z => lt x z) ++ x :: w.dropWhile (fun z => lt x z) := by
  induction w with
  | nil => rfl
  | cons z zs ih =>
    unfold insRev
    rw [List.takeWhile_cons, List.dropWhile_cons]
    by_cases hz : lt x z = true
    · rw [if_pos hz, if_pos hz, if_pos hz, ih]
      rfl
    · rw [if_neg hz, if_neg hz, if_neg hz]
      rfl

theorem chain'_dropWhile {R : α → α → Prop} (p : α → Bool) :
    ∀ {w : List α}, List.Chain' R w → List.Chain' R (w.dropWhile p) := by
  intro w
  induction w with
  | nil => intro _; exact List.chain'_nil
  | cons a t ih =>
    intro h
    rw [List.dropWhile_cons]
    by_cases ha : p a = true
    · rw [if_pos ha]; exact ih h.tail
    · rw [if_neg ha]; exact h

theorem all_nlt_of_chain (lt : α → α → Bool)
    (htrans : ∀ a b c, lt a b = false → lt b c = false → lt a c = false)
    (x : α) :
    ∀ (d : α) (ds : List α),
      List.Chain' (fun a b => lt a b = false) (d :: ds) → lt x d = false →
      ∀ e ∈ d :: ds, lt x e = false := by
  intro d ds
  induction ds generalizing d with
  | nil =>
    intro _ hxd e he
    rw [List.mem_singleton.mp he]
    exact hxd
  | cons d' ds ih =>
    intro hch hxd e he
    have hdd' : lt d d' = false := (List.chain'_cons.mp hch).1
    rcases List.mem_cons.mp he with he | he
    · rw [he]; exact hxd
    · exact ih d' (List.chain'_cons.mp hch).2 (htrans x d d' hxd hdd') e he

theorem takeWhile_append_all {p : α → Bool} :
    ∀ (A B : List α), (∀ a ∈ A, p a = true) →
      (A ++ B).takeWhile p = A ++ B.takeWhile p := by
  intro A B hA
  induction A with
  | nil => simp
  | cons a A ih =>
    rw [List.cons_append, List.takeWhile_cons,
      if_pos (hA a (List.mem_cons_self a A)), List.cons_append,
      ih (fun y hy => hA y (List.mem_cons_of_mem a hy))]

theorem dropWhile_append_all {p : α → Bool} :
    ∀ (A B : List α), (∀ a ∈ A, p a = true) →
      (A ++ B).dropWhile p = B.dropWhile p := by
  intro A B hA
  induction A with
  | nil => simp
  | cons a A ih =>
    rw [List.cons_append, List.dropWhile_cons,
      if_pos (hA a (List.mem_cons_self a A)),
      ih (fun y hy => hA y (List.mem_cons_of_mem a hy))]

theorem takeWhile_eq_nil_of_head {p : α → Bool} :
    ∀ (A : List α), (∀ a ∈ A, p a = false) → A.takeWhile p = [] := by
  intro A hA
  cases A with
  | nil => rfl
  | cons a A =>
    rw [List.takeWhile_cons, if_neg (by simp [hA a (List.mem_cons_self a A)])]

theorem dropWhile_eq_self_of_head {p : α → Bool} :
    ∀ (A : List α), (∀ a ∈ A, p a = false) → A.dropWhile p = A := by
  intro A hA
  cases A with
  | nil => rfl
  | cons a A =>
    rw [List.dropWhile_cons, if_neg (by simp [hA a (List.mem_cons_self a A)])]

theorem dropWhile_head_false {p : α → Bool} :
    ∀ (w : List α) (d : α) (ds : List α), w.dropWhile p = d :: ds → p d = false := by
  intro w
  induction w with
  | nil => intro d ds h; cases h
  | cons a t ih =>
    intro d ds h
    rw [List.dropWhile_cons] at h
    by_cases ha : p a = true
    · rw [if_pos ha] at h; exact ih d ds h
    · rw [if_neg ha] at h
      cases h
      simpa using ha

theorem insRev_chain (lt : α → α → Bool)
    (hasymm : ∀ a b, lt a b = true → lt b a = false)
    (x : α) (w : List α)
    (hw : List.Chain' (fun a b => lt a b = false) w) :
    List.Chain' (fun a b => lt a b = false) (insRev lt x w) := by
  rw [insRev_eq_takeWhile]
  have hw' := (List.takeWhile_append_dropWhile (fun z => lt x z) w).symm
  rw [hw'] at hw
  obtain ⟨chT, chD, _⟩ := List.chain'_append.mp hw
  rw [List.chain'_append]
  refine ⟨chT, ?_, ?_⟩
  · rw [List.chain'_cons']
    refine ⟨?_, chD⟩
    intro y hy
    cases hD : w.dropWhile (fun z => lt x z) with
    | nil => rw [hD] at hy; cases hy
    | cons d ds =>
      rw [hD] at hy
      simp only [List.head?_cons, Option.mem_def, Option.some.injEq] at hy
      rw [← hy]
      exact dropWhile_head_false w d ds hD
  · intro t ht y hy
    simp only [List.head?_cons, Option.mem_def, Option.some.injEq] at hy
    rw [← hy]
    have htT : t ∈ w.takeWhile (fun z => lt x z) := by
      rw [Option.mem_def] at ht
      obtain ⟨ys, hys⟩ := List.getLast?_eq_some_iff.mp ht
      rw [hys]
      exact List.mem_append.mpr (Or.inr (List.mem_singleton.mpr rfl))
    exact hasymm x t (List.mem_takeWhile_imp htT)

theorem insRev_reverse_comm (lt : α → α → Bool)
    (hasymm : ∀ a b, lt a b = true → lt b a = false)
    (htrans : ∀ a b c, lt a b = false → lt b c = false → lt a c = false)
    (x : α) (w : List α)
    (hw : List.Chain' (fun a b => lt a b = false) w) :
    insRev (fun a b => !(lt a b)) x w.reverse = (insRev lt x w).reverse := by
  have hsplit := (List.takeWhile_append_dropWhile (fun z => lt x z) w).symm
  -- every element of the kept prefix is lt-above x, every element of the
  -- rest is not (by the chain invariant and transitivity of not-lt)
  have hT : ∀ e ∈ w.takeWhile (fun z => lt x z), lt x e = true :=
    fun e he => List.mem_takeWhile_imp he
  have hD : ∀ e ∈ w.dropWhile (fun z => lt x z), lt x e = false := by
    cases hDs : w.dropWhile (fun z => lt x z) with
    | nil => intro e he; cases he
    | cons d ds =>
      have hchD : List.Chain' (fun a b => lt a b = false)
          (w.dropWhile (fun z => lt x z)) := chain'_dropWhile _ hw
      rw [hDs] at hchD
      intro e he
      exact all_nlt_of_chain lt htrans x d ds hchD
        (dropWhile_head_false w d ds hDs) e he
  rw [insRev_eq_takeWhile lt x w]
  conv_lhs => rw [hsplit]
  rw [List.reverse_append]
  rw [insRev_eq_takeWhile]
  have htk : (((w.dropWhile (fun z => lt x z)).reverse
        ++ (w.takeWhile (fun z => lt x z)).reverse).takeWhile
          (fun z => !(lt x z)))
      = (w.dropWhile (fun z => lt x z)).reverse := by
    rw [takeWhile_append_all _ _
      (fun a ha => by simp [hD a (List.mem_reverse.mp ha)])]
    rw [takeWhile_eq_nil_of_head _
      (fun a ha => by simp [hT a (List.mem_reverse.mp ha)])]
    simp
  have hdr : (((w.dropWhile (fun z => lt x z)).reverse
        ++ (w.takeWhile (fun z => lt x z)).reverse).dropWhile
          (fun z => !(lt x z)))
      = (w.takeWhile (fun z => lt x z)).reverse := by
    rw [dropWhile_append_all _ _
      (fun a ha => by simp [hD a (List.mem_reverse.mp ha)])]
    exact dropWhile_eq_self_of_head _
      (fun a ha => by simp [hT a (List.mem_reverse.mp ha)])
  rw [htk, hdr]
  rw [List.reverse_append, List.reverse_cons]
  simp

theorem sortfold_reverse (lt : α → α → Bool)
    (hasymm : ∀ a b, lt a b = true → lt b a = false)
    (htrans : ∀ a b c, lt a b = false → lt b c = false → lt a c = false) :
    ∀ (xs : List α) (acc : List α),
      List.Chain' (fun a b => lt a b = false) acc →
      xs.foldl (fun a y => insRev (fun a b => !(lt a b)) y a) acc.reverse
        = (xs.foldl (fun a y => insRev lt y a) acc).reverse := by
  intro xs
  induction xs with
  | nil => intro acc _; rfl
  | cons y xs ih =>
    intro acc hacc
    rw [List.foldl_cons, List.foldl_cons,
      insRev_reverse_comm lt hasymm htrans y acc hacc]
    exact ih (insRev lt y acc) (insRev_chain lt hasymm y acc hacc)

/-- Negating a comparator that is asymmetric and not-lt-transitive makes
Go's insertion sort produce the exact reverse output on every input. -/
theorem goInsertionSort_reverse (lt : α → α → Bool)
    (hasymm : ∀ a b, lt a b = true → lt b a = false)
    (htrans : ∀ a b c, lt a b = false → lt b c = false → lt a c = false)
    (xs : List α) :
    goInsertionSort (fun a b => !(lt a b)) xs = (goInsertionSort lt xs).reverse := by
  unfold goInsertionSort
  have h := sortfold_reverse lt hasymm htrans xs [] List.chain'_nil
  rw [show (([] : List α).reverse) = [] from rfl] at h
  rw [h]

/-- `type ProcessListItem struct` (main.go lines 109-115); the derived
`display` string is render glue and carries no sort key. -/
structure ProcessListItem where
  gpu : Int
  name : Str
  pid : Str
  usage : Str
deriving Repr, DecidableEq

/-- The comparator body of `sort.Slice` (main.go lines 151-162): a switch on
the selected column; `result` stays false for an out-of-range column. -/
def itemLess (selectedColumn : Nat) (a b : ProcessListItem) : Bool :=
  match selectedColumn with
  | 0 => decide (a.gpu < b.gpu)
  | 1 => strLtB a.name b.name
  | 2 => strLtB a.pid b.pid
  | 3 => strLtB a.usage b.usage
  | _ => false

/-- The full comparator (main.go lines 163-166): `sortReverse` negates the
boolean result of the column comparison. -/
def itemLessDir (selectedColumn : Nat) (sortReverse : Bool)
    (a b : ProcessListItem) : Bool :=
  if sortReverse then !(itemLess selectedColumn a b)
  else itemLess selectedColumn a b

/-- The sort performed by `updateProcessList` for a given sort state. -/
def sortItems (selectedColumn : Nat) (sortReverse : Bool)
    (items : List ProcessListItem) : List ProcessListItem :=
  goInsertionSort (itemLessDir selectedColumn sortReverse) items

example :
    sortItems 1 false
        [⟨0, "b".data, "1".data, "5.0%".data⟩,
         ⟨1, "a".data, "2".data, "6.0%".data⟩,
         ⟨2, "a".data, "3".data, "7.0%".data⟩]
      = [⟨1, "a".data, "2".data, "6.0%".data⟩,
         ⟨2, "a".data, "3".data, "7.0%".data⟩,
         ⟨0, "b".data, "1".data, "5.0%".data⟩] := by decide

example :
    sortItems 1 true
        [⟨0, "b".data, "1".data, "5.0%".data⟩,
         ⟨1, "a".data, "2".data, "6.0%".data⟩,
         ⟨2, "a".data, "3".data, "7.0%".data⟩]
      = [⟨0, "b".data, "1".data, "5.0%".data⟩,
         ⟨2, "a".data, "3".data, "7.0%".data⟩,
         ⟨1, "a".data, "2".data, "6.0%".data⟩] := by decide

/-- C8: with the usage column selected, records are ordered by lexicographic
comparison of the pre-formatted percentage strings, not numerically:
`"80.0%" < "9.0%"` as strings, so the record showing 80.0% sorts before the
record showing 9.0% even though 9 < 80 numerically. -/
theorem C8_usage_sorts_lexicographically :
    sortItems 3 false
        [⟨0, "p1".data, "1".data, "9.0%".data⟩,
         ⟨0, "p2".data, "2".data, "80.0%".data⟩]
      = [⟨0, "p2".data, "2".data, "80.0%".data⟩,
         ⟨0, "p1".data, "1".data, "9.0%".data⟩]
    ∧ strLtB "80.0%".data "9.0%".data = true
    ∧ strLtB "9.0%".data "80.0%".data = false
    ∧ (9 : ℚ) < 80 := by
  refine ⟨by decide, by decide, by decide, by norm_num⟩

/-! ### The keyboard handler (`handleProcessListEvents`, main.go lines
176-203) and the sort-state invariant. -/

/-- The sort columns (main.go line 105). -/
def columns : List Str :=
  ["GPU".data, "Name".data, "PID".data, "Usage".data]

/-- The mutable UI state the handler touches: the list's selected row and
row count, and the global sort state. -/
structure UIState where
  selectedRow : Int
  rowsLen : Nat
  selectedColumn : Int
  sortReverse : Bool
deriving Repr, DecidableEq

/-- The keyboard events the handler distinguishes; `other` covers every
other event identifier (the switch has no default action). -/
inductive UIEvent
  | up
  | down
  | left
  | right
  | enter
  | space
  | other
deriving Repr, DecidableEq

/-- `handleProcessListEvents` (main.go lines 176-203): arrows move the row
selection or the sort column (clamped, no wraparound), enter/space toggle
the direction.  The `processList.Title` update is render glue. -/
def handleProcessListEvents (s : UIState) (e : UIEvent) : UIState :=
  match e with
  | .up => if s.selectedRow > 0 then { s with selectedRow := s.selectedRow - 1 } else s
  | .down =>
    if s.selectedRow < (s.rowsLen : Int) - 1 then
      { s with selectedRow := s.selectedRow + 1 }
    else s
  | .left =>
    if s.selectedColumn > 0 then { s with selectedColumn := s.selectedColumn - 1 }
    else s
  | .right =>
    if s.selectedColumn < (columns.length : Int) - 1 then
      { s with selectedColumn := s.selectedColumn + 1 }
    else s
  | .enter => { s with sortReverse := !s.sortReverse }
  | .space => { s with sortReverse := !s.sortReverse }
  | .other => s

/-- The initial state: Go zero values for the globals (`selectedColumn = 0`,
`sortReverse = false`) and `processList.SelectedRow = 0`. -/
def initUIState (rowsLen : Nat) : UIState :=
  { selectedRow := 0, rowsLen := rowsLen, selectedColumn := 0, sortReverse := false }

theorem handleProcessListEvents_column_bounds {s : UIState} (e : UIEvent)
    (h0 : 0 ≤ s.selectedColumn) (h3 : s.selectedColumn ≤ 3) :
    0 ≤ (handleProcessListEvents s e).selectedColumn
    ∧ (handleProcessListEvents s e).selectedColumn ≤ 3 := by
  cases e with
  | up =>
    simp only [handleProcessListEvents]
    split <;> exact ⟨h0, h3⟩
  | down =>
    simp only [handleProcessListEvents]
    split <;> exact ⟨h0, h3⟩
  | left =>
    simp only [handleProcessListEvents]
    split
    · refine ⟨?_, ?_⟩ <;> simp_all <;> omega
    · exact ⟨h0, h3⟩
  | right =>
    simp only [handleProcessListEvents]
    split
    · refine ⟨?_, ?_⟩ <;> simp_all [columns] <;> omega
    · exact ⟨h0, h3⟩
  | enter => exact ⟨h0, h3⟩
  | space => exact ⟨h0, h3⟩
  | other => exact ⟨h0, h3⟩

/-- C9: starting from the initial state, every sequence of keyboard events
keeps the selected sort column inside the enumerated range 0..3; a left
event at column 0 and a right event at the last column (3) leave the column
unchanged — clamping, no wraparound. -/
theorem C9_column_clamped (events : List UIEvent) (rowsLen : Nat) :
    (0 ≤ (events.foldl handleProcessListEvents (initUIState rowsLen)).selectedColumn
      ∧ (events.foldl handleProcessListEvents (initUIState rowsLen)).selectedColumn ≤ 3)
    ∧ (∀ s : UIState, s.selectedColumn = 0 →
        (handleProcessListEvents s .left).selectedColumn = 0)
    ∧ (∀ s : UIState, s.selectedColumn = 3 →
        (handleProcessListEvents s .right).selectedColumn = 3) := by
  refine ⟨?_, ?_, ?_⟩
  · have hgen : ∀ (evs : List UIEvent) (s : UIState),
        0 ≤ s.selectedColumn → s.selectedColumn ≤ 3 →
        0 ≤ (evs.foldl handleProcessListEvents s).selectedColumn
          ∧ (evs.foldl handleProcessListEvents s).selectedColumn ≤ 3 := by
      intro evs
      induction evs with
      | nil => intro s h0 h3; exact ⟨h0, h3⟩
      | cons e evs ih =>
        intro s h0 h3
        obtain ⟨g0, g3⟩ := handleProcessListEvents_column_bounds e h0 h3
        exact ih _ g0 g3
    exact hgen events (initUIState rowsLen) (by simp [initUIState])
      (by simp [initUIState])
  · intro s h
    simp only [handleProcessListEvents]
    rw [if_neg (by omega), h]
  · intro s h
    simp only [handleProcessListEvents]
    rw [if_neg (by simp only [columns, List.length_cons, List.length_nil]; omega), h]

/-- C9 witness: after left at the bottom, three rights, and one more right
at the top, the column is clamped at 3; the no-op clauses at the bounds. -/
theorem C9_column_clamped_witness :
    (0 ≤ (([UIEvent.left, .right, .right, .right, .right].foldl
        handleProcessListEvents (initUIState 5)).selectedColumn)
      ∧ (([UIEvent.left, .right, .right, .right, .right].foldl
        handleProcessListEvents (initUIState 5)).selectedColumn) ≤ 3)
    ∧ (handleProcessListEvents (initUIState 5) .left).selectedColumn = 0
    ∧ (handleProcessListEvents
          { selectedRow := 0, rowsLen := 5, selectedColumn := 3,
            sortReverse := false } .right).selectedColumn = 3 :=
  ⟨(C9_column_clamped [UIEvent.left, .right, .right, .right, .right] 5).1,
   (C9_column_clamped [] 5).2.1 (initUIState 5) (by decide),
   (C9_column_clamped [] 5).2.2
     { selectedRow := 0, rowsLen := 5, selectedColumn := 3, sortReverse := false }
     (by decide)⟩
